import Mathlib

/-!
Verification of the yt-dlp/ffmpeg GUI repository (two iterations of
`video_downloader.py`).  The Python functions relevant to the claims are
shallowly embedded as executable Lean definitions: strings are Lean
`String`s (lists of characters), command lines are `List String`, Python
exceptions (`ValueError`, `subprocess.CalledProcessError`) become
`Except`/`Option` values, and the tkinter widget state is an explicit
structure.  Digits and whitespace are modelled by `Char.isDigit` and
`Char.isWhitespace` (the ASCII fragment of Python's Unicode classes).
-/

namespace YtGui

/-! ## `parse_time` (new iteration, lines 175-191)

Python:
```
time_pattern = r"^(\d+)(?:[:.](\d\x7b1,2\x7d))?(?:[:.](\d\x7b1,2\x7d))?$"
match = re.match(time_pattern, time_str.strip())
```
The regex is anchored on both sides; group 1 is a maximal digit run, each
optional group consumes a separator from `[:.]` followed by a digit run of
length 1 or 2 (a longer run can never match, because the character after
the consumed digits would be a digit, which neither `[:.]` nor `$`
accepts), and a successful match uses group 2 before group 3.  The
embedding below performs exactly that deterministic decomposition.
-/

/-- A separator character of the character class `[:.]`. -/
def isSepChar (c : Char) : Bool := c == ':' || c == '.'

/-- Numeric value of a digit string, as computed by Python's `int`. -/
def digitsToNat (l : List Char) : Nat :=
  l.foldl (fun a c => a * 10 + (c.toNat - 48)) 0

/-- Python's `str.strip()`: remove leading and trailing whitespace. -/
def pyStrip (l : List Char) : List Char :=
  ((l.dropWhile Char.isWhitespace).reverse.dropWhile Char.isWhitespace).reverse

/-- The anchored match of `^(\d+)(?:[:.](\d\x7b1,2\x7d))?(?:[:.](\d\x7b1,2\x7d))?$`
plus the arithmetic of `parse_time` on the captured groups. -/
def parse_time_core (l : List Char) : Option Nat :=
  let d1 := l.takeWhile Char.isDigit
  if d1 = [] then none
  else
    match l.dropWhile Char.isDigit with
    | [] => some (digitsToNat d1)
    | c1 :: r2 =>
      if isSepChar c1 then
        let d2 := r2.takeWhile Char.isDigit
        if d2.length = 1 ∨ d2.length = 2 then
          match r2.dropWhile Char.isDigit with
          | [] => some (digitsToNat d1 * 3600 + digitsToNat d2 * 60)
          | c2 :: r4 =>
            if isSepChar c2 then
              let d3 := r4.takeWhile Char.isDigit
              if (d3.length = 1 ∨ d3.length = 2) ∧ r4.dropWhile Char.isDigit = [] then
                some (digitsToNat d1 * 3600 + digitsToNat d2 * 60 + digitsToNat d3)
              else none
            else none
        else none
      else none

/-- `parse_time` from the new iteration: strip whitespace, then match the
time pattern and convert to seconds. -/
def parse_time (s : String) : Option Nat :=
  parse_time_core (pyStrip s.toList)

/-! ### The regex language, stated declaratively -/

/-- A non-empty run of digits (`\d+`). -/
def DigitRun (l : List Char) : Prop := l ≠ [] ∧ ∀ c ∈ l, c.isDigit

/-- A digit run of length 1 or 2 (`\d\x7b1,2\x7d`). -/
def ShortRun (l : List Char) : Prop :=
  (∀ c ∈ l, c.isDigit) ∧ (l.length = 1 ∨ l.length = 2)

/-- Membership in the language of the anchored regex
`^(\d+)(?:[:.](\d\x7b1,2\x7d))?(?:[:.](\d\x7b1,2\x7d))?$`. -/
def MatchesTimePattern (l : List Char) : Prop :=
  DigitRun l ∨
  (∃ d1 c1 d2, DigitRun d1 ∧ isSepChar c1 = true ∧ ShortRun d2 ∧
    l = d1 ++ c1 :: d2) ∨
  (∃ d1 c1 d2 c2 d3, DigitRun d1 ∧ isSepChar c1 = true ∧ ShortRun d2 ∧
    isSepChar c2 = true ∧ ShortRun d3 ∧ l = d1 ++ c1 :: (d2 ++ c2 :: d3))

/-! ### Character facts -/

lemma isDigit_val {c : Char} (h : c.isDigit = true) :
    48 ≤ c.val.toNat ∧ c.val.toNat ≤ 57 := by
  simp only [Char.isDigit, Bool.and_eq_true, decide_eq_true_eq, ge_iff_le] at h
  obtain ⟨h1, h2⟩ := h
  rw [UInt32.le_def, BitVec.le_def] at h1 h2
  simp at h1 h2
  exact ⟨h1, h2⟩

lemma not_whitespace_of_isDigit {c : Char} (h : c.isDigit = true) :
    c.isWhitespace = false := by
  obtain ⟨h1, h2⟩ := isDigit_val h
  simp only [Char.isWhitespace, Bool.or_eq_false_iff, decide_eq_false_iff_not]
  refine ⟨⟨⟨?_, ?_⟩, ?_⟩, ?_⟩ <;>
    · intro hc
      subst hc
      simp_all

lemma sep_cases {c : Char} (h : isSepChar c = true) : c = ':' ∨ c = '.' := by
  simp only [isSepChar, Bool.or_eq_true, beq_iff_eq] at h
  exact h

lemma not_digit_of_sep {c : Char} (h : isSepChar c = true) :
    c.isDigit = false := by
  rcases sep_cases h with rfl | rfl <;> decide

lemma not_whitespace_of_sep {c : Char} (h : isSepChar c = true) :
    c.isWhitespace = false := by
  rcases sep_cases h with rfl | rfl <;> decide

/-! ### takeWhile / dropWhile decomposition lemmas -/

/-- The first character of `l` (if any) fails the digit test. -/
def headNotDigit : List Char → Prop
  | [] => True
  | c :: _ => c.isDigit = false

lemma takeWhile_digit_append {d r : List Char}
    (hd : ∀ c ∈ d, c.isDigit) (hr : headNotDigit r) :
    (d ++ r).takeWhile Char.isDigit = d ∧
    (d ++ r).dropWhile Char.isDigit = r := by
  induction d with
  | nil =>
    simp only [List.nil_append]
    cases r with
    | nil => simp
    | cons c t =>
      simp only [headNotDigit] at hr
      simp [List.takeWhile_cons, List.dropWhile_cons, hr]
  | cons a d ih =>
    have ha : a.isDigit := hd a (List.mem_cons_self a d)
    have hd' : ∀ c ∈ d, c.isDigit := fun c hc => hd c (List.mem_cons_of_mem a hc)
    obtain ⟨h1, h2⟩ := ih hd'
    simp [List.takeWhile_cons, List.dropWhile_cons, ha, h1, h2]

lemma dropWhile_not_whitespace {l : List Char}
    (h : ∀ c ∈ l, c.isWhitespace = false) :
    l.dropWhile Char.isWhitespace = l := by
  cases l with
  | nil => rfl
  | cons a t =>
    have := h a (List.mem_cons_self a t)
    simp [List.dropWhile_cons, this]

lemma pyStrip_of_not_whitespace {l : List Char}
    (h : ∀ c ∈ l, c.isWhitespace = false) : pyStrip l = l := by
  unfold pyStrip
  rw [dropWhile_not_whitespace h]
  rw [dropWhile_not_whitespace (fun c hc => h c (List.mem_reverse.mp hc))]
  exact List.reverse_reverse l

lemma takeWhile_digit_self {d : List Char} (hd : ∀ c ∈ d, c.isDigit) :
    d.takeWhile Char.isDigit = d ∧ d.dropWhile Char.isDigit = [] := by
  have h := takeWhile_digit_append (r := []) hd trivial
  simpa using h

lemma parse_time_core_bare {d : List Char} (h : DigitRun d) :
    parse_time_core d = some (digitsToNat d) := by
  obtain ⟨hne, hd⟩ := h
  obtain ⟨ht, hdrop⟩ := takeWhile_digit_self hd
  simp only [parse_time_core]
  rw [ht, hdrop]
  simp [hne]

lemma parse_time_core_two {d1 d2 : List Char} {c1 : Char}
    (h1 : DigitRun d1) (hc1 : isSepChar c1 = true) (h2 : ShortRun d2) :
    parse_time_core (d1 ++ c1 :: d2) =
      some (digitsToNat d1 * 3600 + digitsToNat d2 * 60) := by
  obtain ⟨hne, hd⟩ := h1
  obtain ⟨hd2, hlen⟩ := h2
  have hA := takeWhile_digit_append (r := c1 :: d2) hd
    (by simp [headNotDigit, not_digit_of_sep hc1])
  have hB := takeWhile_digit_self hd2
  simp only [parse_time_core]
  rw [hA.1, hA.2]
  simp [hne, hc1, hB.1, hB.2, hlen]

lemma parse_time_core_three {d1 d2 d3 : List Char} {c1 c2 : Char}
    (h1 : DigitRun d1) (hc1 : isSepChar c1 = true) (h2 : ShortRun d2)
    (hc2 : isSepChar c2 = true) (h3 : ShortRun d3) :
    parse_time_core (d1 ++ c1 :: (d2 ++ c2 :: d3)) =
      some (digitsToNat d1 * 3600 + digitsToNat d2 * 60 + digitsToNat d3) := by
  obtain ⟨hne, hd⟩ := h1
  obtain ⟨hd2, hlen2⟩ := h2
  obtain ⟨hd3, hlen3⟩ := h3
  have hA := takeWhile_digit_append (r := c1 :: (d2 ++ c2 :: d3)) hd
    (by simp [headNotDigit, not_digit_of_sep hc1])
  have hB := takeWhile_digit_append (r := c2 :: d3) hd2
    (by simp [headNotDigit, not_digit_of_sep hc2])
  have hC := takeWhile_digit_self hd3
  simp only [parse_time_core]
  rw [hA.1, hA.2]
  simp [hne, hc1, hc2, hB.1, hB.2, hC.1, hC.2, hlen2, hlen3]

lemma matches_of_parse_time_core_some {l : List Char} {n : Nat}
    (h : parse_time_core l = some n) : MatchesTimePattern l := by
  have hsplit : l.takeWhile Char.isDigit ++ l.dropWhile Char.isDigit = l :=
    List.takeWhile_append_dropWhile _ _
  have hdig1 : ∀ c ∈ l.takeWhile Char.isDigit, c.isDigit :=
    fun _ hc => List.mem_takeWhile_imp hc
  simp only [parse_time_core] at h
  by_cases h0 : l.takeWhile Char.isDigit = []
  · simp [h0] at h
  · rw [if_neg h0] at h
    split at h
    · rename_i hE
      left
      refine ⟨?_, ?_⟩
      · intro hnil
        exact h0 (by rw [hnil]; rfl)
      · rw [← hsplit, hE, List.append_nil]
        exact hdig1
    · rename_i c1 r2 hE
      by_cases hs1 : isSepChar c1 = true
      · rw [if_pos hs1] at h
        by_cases hlen2 : (r2.takeWhile Char.isDigit).length = 1 ∨
            (r2.takeWhile Char.isDigit).length = 2
        · rw [if_pos hlen2] at h
          have hdig2 : ∀ c ∈ r2.takeWhile Char.isDigit, c.isDigit :=
            fun _ hc => List.mem_takeWhile_imp hc
          have hsplit2 : r2.takeWhile Char.isDigit ++
              r2.dropWhile Char.isDigit = r2 :=
            List.takeWhile_append_dropWhile _ _
          split at h
          · rename_i hF
            right; left
            refine ⟨l.takeWhile Char.isDigit, c1, r2.takeWhile Char.isDigit,
              ⟨h0, hdig1⟩, hs1, ⟨hdig2, hlen2⟩, ?_⟩
            have hr2 : r2.takeWhile Char.isDigit = r2 := by
              conv_rhs => rw [← hsplit2, hF, List.append_nil]
            have hgoal : l.takeWhile Char.isDigit ++
                c1 :: r2.takeWhile Char.isDigit = l := by
              rw [hr2, ← hE]
              exact hsplit
            exact hgoal.symm
          · rename_i c2 r4 hF
            by_cases hs2 : isSepChar c2 = true
            · rw [if_pos hs2] at h
              by_cases hcond : ((r4.takeWhile Char.isDigit).length = 1 ∨
                  (r4.takeWhile Char.isDigit).length = 2) ∧
                  r4.dropWhile Char.isDigit = []
              · right; right
                have hdig3 : ∀ c ∈ r4.takeWhile Char.isDigit, c.isDigit :=
                  fun _ hc => List.mem_takeWhile_imp hc
                refine ⟨l.takeWhile Char.isDigit, c1, r2.takeWhile Char.isDigit,
                  c2, r4.takeWhile Char.isDigit,
                  ⟨h0, hdig1⟩, hs1, ⟨hdig2, hlen2⟩, hs2, ⟨hdig3, hcond.1⟩, ?_⟩
                have hsplit4 : r4.takeWhile Char.isDigit ++
                    r4.dropWhile Char.isDigit = r4 :=
                  List.takeWhile_append_dropWhile _ _
                have hr4 : r4.takeWhile Char.isDigit = r4 := by
                  conv_rhs => rw [← hsplit4, hcond.2, List.append_nil]
                have hgoal : l.takeWhile Char.isDigit ++
                    c1 :: (r2.takeWhile Char.isDigit ++
                      c2 :: r4.takeWhile Char.isDigit) = l := by
                  rw [hr4, ← hF, hsplit2, ← hE]
                  exact hsplit
                exact hgoal.symm
              · rw [if_neg hcond] at h
                exact Option.noConfusion h
            · rw [if_neg hs2] at h
              exact Option.noConfusion h
        · rw [if_neg hlen2] at h
          exact Option.noConfusion h
      · rw [if_neg hs1] at h
        exact Option.noConfusion h

lemma no_ws_digits {d : List Char} (hd : ∀ c ∈ d, c.isDigit) :
    ∀ c ∈ d, c.isWhitespace = false :=
  fun c hc => not_whitespace_of_isDigit (hd c hc)

lemma parse_time_mk (l : List Char) :
    parse_time (String.mk l) = parse_time_core (pyStrip l) := rfl

/-- C1: `parse_time` realises the regex
`^(\d+)(?:[:.](\d\x7b1,2\x7d))?(?:[:.](\d\x7b1,2\x7d))?$` after stripping
whitespace: a 3-component `h:m:s` string yields `h*3600 + m*60 + s`, a bare
digit run `n` yields `n`, and any string whose stripped form is outside the
regex language yields `none`. -/
theorem parse_time_spec :
    (∀ (d1 d2 d3 : List Char) (c1 c2 : Char),
        DigitRun d1 → isSepChar c1 = true → ShortRun d2 →
        isSepChar c2 = true → ShortRun d3 →
        parse_time (String.mk (d1 ++ c1 :: (d2 ++ c2 :: d3))) =
          some (digitsToNat d1 * 3600 + digitsToNat d2 * 60 + digitsToNat d3)) ∧
    (∀ d : List Char, DigitRun d →
        parse_time (String.mk d) = some (digitsToNat d)) ∧
    (∀ s : String, ¬ MatchesTimePattern (pyStrip s.toList) →
        parse_time s = none) := by
  refine ⟨?_, ?_, ?_⟩
  · intro d1 d2 d3 c1 c2 h1 hc1 h2 hc2 h3
    have hws : ∀ c ∈ d1 ++ c1 :: (d2 ++ c2 :: d3), c.isWhitespace = false := by
      intro x hx
      rcases List.mem_append.mp hx with hx | hx
      · exact not_whitespace_of_isDigit (h1.2 x hx)
      · rcases List.mem_cons.mp hx with rfl | hx
        · exact not_whitespace_of_sep hc1
        · rcases List.mem_append.mp hx with hx | hx
          · exact not_whitespace_of_isDigit (h2.1 x hx)
          · rcases List.mem_cons.mp hx with rfl | hx
            · exact not_whitespace_of_sep hc2
            · exact not_whitespace_of_isDigit (h3.1 x hx)
    rw [parse_time_mk, pyStrip_of_not_whitespace hws]
    exact parse_time_core_three h1 hc1 h2 hc2 h3
  · intro d hd
    rw [parse_time_mk, pyStrip_of_not_whitespace (no_ws_digits hd.2)]
    exact parse_time_core_bare hd
  · intro s hnm
    cases hp : parse_time s with
    | none => rfl
    | some n =>
      have hp' : parse_time_core (pyStrip s.toList) = some n := hp
      exact absurd (matches_of_parse_time_core_some hp') hnm

theorem parse_time_spec_witness :
    parse_time (String.mk (['1'] ++ ':' :: (['0', '2'] ++ ':' :: ['3']))) =
      some 3723 ∧
    parse_time (String.mk ['4', '5']) = some 45 ∧
    parse_time "" = none := by
  refine ⟨?_, ?_, ?_⟩
  · have h := parse_time_spec.1 ['1'] ['0', '2'] ['3'] ':' ':'
      ⟨by decide, by decide⟩ (by decide) ⟨by decide, by decide⟩
      (by decide) ⟨by decide, by decide⟩
    rw [h]
    rfl
  · have h := parse_time_spec.2.1 ['4', '5'] ⟨by decide, by decide⟩
    rw [h]
    rfl
  · refine parse_time_spec.2.2 "" ?_
    rintro (⟨hne, -⟩ | ⟨d1, c1, d2, ⟨hne, -⟩, -, -, heq⟩ |
      ⟨d1, c1, d2, c2, d3, ⟨hne, -⟩, -, -, -, -, heq⟩)
    · exact hne rfl
    · cases d1 <;> simp [pyStrip] at heq
    · cases d1 <;> simp [pyStrip] at heq

/-- C8: a two-component entry `a:b` is read as hours and minutes
(`a*3600 + b*60`), not minutes and seconds, while a bare number is seconds;
in particular `parse_time "1:30" = 5400` and `parse_time "90" = 90`. -/
theorem parse_time_two_components_are_hours_minutes :
    (∀ (a b : List Char) (c : Char),
        DigitRun a → isSepChar c = true → ShortRun b →
        parse_time (String.mk (a ++ c :: b)) =
          some (digitsToNat a * 3600 + digitsToNat b * 60)) ∧
    parse_time "1:30" = some 5400 ∧
    parse_time "90" = some 90 := by
  refine ⟨?_, by decide, by decide⟩
  intro a b c ha hc hb
  have hws : ∀ x ∈ a ++ c :: b, x.isWhitespace = false := by
    intro x hx
    rcases List.mem_append.mp hx with hx | hx
    · exact not_whitespace_of_isDigit (ha.2 x hx)
    · rcases List.mem_cons.mp hx with rfl | hx
      · exact not_whitespace_of_sep hc
      · exact not_whitespace_of_isDigit (hb.1 x hx)
  rw [parse_time_mk, pyStrip_of_not_whitespace hws]
  exact parse_time_core_two ha hc hb

theorem parse_time_two_components_are_hours_minutes_witness :
    parse_time (String.mk (['2'] ++ ':' :: ['0', '5'])) = some 7500 := by
  have h := parse_time_two_components_are_hours_minutes.1 ['2'] ['0', '5'] ':'
    ⟨by decide, by decide⟩ (by decide) ⟨by decide, by decide⟩
  rw [h]
  rfl

/-! ## Widget state and command construction

The tkinter widgets read inside `_build_youtube_command` (new iteration,
lines 631-669) and `download_video` (old iteration, lines 470-537):
start/end time entries, the authorize checkbutton, and the resolution and
CRF comboboxes.  Python's truthiness test `if start_time` on a string is
the test against `""`. -/

structure WidgetState where
  start_time : String
  end_time : String
  authorize : Bool
  resolution : String
  crf_value : String
deriving DecidableEq

/-- The guard `start_seconds is not None and end_seconds is not None and
end_seconds <= start_seconds` of `_build_download_sections`. -/
def endNotAfterStart : Option Nat → Option Nat → Bool
  | some a, some b => b ≤ a
  | _, _ => false

/-- `_build_download_sections` (new iteration, lines 599-629).
`ValueError` is modelled as `Except.error` carrying the message. -/
def _build_download_sections (start_time end_time : String) :
    Except String (List String) :=
  if start_time = "" ∧ end_time = "" then .ok []
  else
    let start_seconds := if start_time = "" then none else parse_time start_time
    let end_seconds := if end_time = "" then none else parse_time end_time
    if (start_time ≠ "" ∧ start_seconds = none) ∨
        (end_time ≠ "" ∧ end_seconds = none) then
      .error "Invalid time format. Use seconds, HH:MM or HH:MM:SS"
    else if endNotAfterStart start_seconds end_seconds then
      .error "End time cannot be earlier than start time"
    else
      .ok (["--download-sections"] ++
        (if start_time ≠ "" ∧ end_time ≠ "" then
          ["*" ++ start_time ++ "-" ++ end_time]
        else if start_time ≠ "" then ["*" ++ start_time ++ "-"]
        else if end_time ≠ "" then ["*-" ++ end_time]
        else []) ++
        ["--force-keyframes-at-cuts"])

/-- The fixed part of the yt-dlp invocation for YouTube, shared verbatim by
both iterations (new: lines 644-660; old: lines 498-508). -/
def ytBaseCmd (st : WidgetState)
    (yt_dlp_path ffmpeg_path output_template url : String) : List String :=
  [yt_dlp_path, "-f",
    "bestvideo[height=" ++ st.resolution ++ "]+bestaudio/best",
    "--merge-output-format", "mp4",
    "--ffmpeg-location", ffmpeg_path,
    "-o", output_template, url,
    "--postprocessor-args", "-c:v libx264 -crf " ++ st.crf_value,
    "--force-overwrite"]

/-- The `--cookies-from-browser firefox` suffix added when the authorize
switch is on. -/
def authArgs (authorize : Bool) : List String :=
  if authorize then ["--cookies-from-browser", "firefox"] else []

/-- `_build_youtube_command` (new iteration, lines 631-669): base command,
then the download sections (propagating the `ValueError`), then the
authorization arguments. -/
def _build_youtube_command (st : WidgetState)
    (yt_dlp_path ffmpeg_path output_template url : String) :
    Except String (List String) :=
  match _build_download_sections st.start_time st.end_time with
  | .error e => .error e
  | .ok sections =>
    .ok (ytBaseCmd st yt_dlp_path ffmpeg_path output_template url ++
      sections ++ authArgs st.authorize)

/-- The YouTube branch of the old iteration's `download_video`
(lines 496-520): same base command, sections appended without any
validation, then the authorization arguments. -/
def download_video_yt_command (st : WidgetState)
    (yt_dlp_path ffmpeg_path output_template url : String) : List String :=
  ytBaseCmd st yt_dlp_path ffmpeg_path output_template url ++
    (if st.start_time ≠ "" ∧ st.end_time ≠ "" then
      ["--download-sections",
        "*" ++ st.start_time ++ "-" ++ st.end_time,
        "--force-keyframes-at-cuts"]
    else if st.start_time ≠ "" then
      ["--download-sections", "*" ++ st.start_time ++ "-",
        "--force-keyframes-at-cuts"]
    else if st.end_time ≠ "" then
      ["--download-sections", "*-" ++ st.end_time,
        "--force-keyframes-at-cuts"]
    else []) ++
    authArgs st.authorize

lemma endNotAfterStart_iff {a b : Option Nat} :
    endNotAfterStart a b = true ↔ ∃ x y, a = some x ∧ b = some y ∧ y ≤ x := by
  cases a <;> cases b <;> simp [endNotAfterStart]

/-! ### Case-by-case evaluation of `_build_download_sections` -/

lemma bds_empty_empty : _build_download_sections "" "" = .ok [] := rfl

lemma bds_error_start {s e : String} (hs : s ≠ "") (hps : parse_time s = none) :
    _build_download_sections s e =
      .error "Invalid time format. Use seconds, HH:MM or HH:MM:SS" := by
  simp [_build_download_sections, hs, hps]

lemma bds_error_end {s e : String} (he : e ≠ "") (hpe : parse_time e = none) :
    _build_download_sections s e =
      .error "Invalid time format. Use seconds, HH:MM or HH:MM:SS" := by
  simp [_build_download_sections, he, hpe]

lemma bds_error_order {s e : String} {a b : Nat}
    (hs : s ≠ "") (he : e ≠ "")
    (hps : parse_time s = some a) (hpe : parse_time e = some b) (hba : b ≤ a) :
    _build_download_sections s e =
      .error "End time cannot be earlier than start time" := by
  simp [_build_download_sections, hs, he, hps, hpe, endNotAfterStart, hba]

lemma bds_ok_both {s e : String} {a b : Nat}
    (hs : s ≠ "") (he : e ≠ "")
    (hps : parse_time s = some a) (hpe : parse_time e = some b) (hab : a < b) :
    _build_download_sections s e = .ok ["--download-sections",
      "*" ++ s ++ "-" ++ e, "--force-keyframes-at-cuts"] := by
  simp [_build_download_sections, hs, he, hps, hpe, endNotAfterStart,
    not_le.mpr hab]

lemma bds_ok_start {s : String} {a : Nat}
    (hs : s ≠ "") (hps : parse_time s = some a) :
    _build_download_sections s "" = .ok ["--download-sections",
      "*" ++ s ++ "-", "--force-keyframes-at-cuts"] := by
  simp [_build_download_sections, hs, hps, endNotAfterStart]

lemma bds_ok_end {e : String} {b : Nat}
    (he : e ≠ "") (hpe : parse_time e = some b) :
    _build_download_sections "" e = .ok ["--download-sections",
      "*-" ++ e, "--force-keyframes-at-cuts"] := by
  simp [_build_download_sections, he, hpe, endNotAfterStart]

/-- C9: `_build_download_sections` raises `ValueError` exactly when a
non-empty entry fails `parse_time`, or both entries parse and the end is
not strictly after the start; equal times are rejected with the
"earlier than" message; two empty entries give the empty argument list. -/
theorem build_download_sections_error_spec :
    _build_download_sections "" "" = Except.ok [] ∧
    (∀ s e : String,
      (∃ m, _build_download_sections s e = .error m) ↔
        ((s ≠ "" ∧ parse_time s = none) ∨
         (e ≠ "" ∧ parse_time e = none) ∨
         (s ≠ "" ∧ e ≠ "" ∧ ∃ a b, parse_time s = some a ∧
            parse_time e = some b ∧ b ≤ a))) ∧
    (∀ (s e : String) (a : Nat), s ≠ "" → e ≠ "" →
      parse_time s = some a → parse_time e = some a →
      _build_download_sections s e =
        .error "End time cannot be earlier than start time") := by
  refine ⟨rfl, ?_, ?_⟩
  · intro s e
    constructor
    · rintro ⟨m, hm⟩
      by_cases hs0 : s = ""
      · subst hs0
        by_cases he0 : e = ""
        · subst he0
          rw [bds_empty_empty] at hm
          exact Except.noConfusion hm
        · cases hpe : parse_time e with
          | none => exact Or.inr (Or.inl ⟨he0, rfl⟩)
          | some b =>
            rw [bds_ok_end he0 hpe] at hm
            exact Except.noConfusion hm
      · cases hps : parse_time s with
        | none => exact Or.inl ⟨hs0, rfl⟩
        | some a =>
          by_cases he0 : e = ""
          · subst he0
            rw [bds_ok_start hs0 hps] at hm
            exact Except.noConfusion hm
          · cases hpe : parse_time e with
            | none => exact Or.inr (Or.inl ⟨he0, rfl⟩)
            | some b =>
              by_cases hba : b ≤ a
              · exact Or.inr (Or.inr ⟨hs0, he0, a, b, rfl, rfl, hba⟩)
              · rw [bds_ok_both hs0 he0 hps hpe (not_le.mp hba)] at hm
                exact Except.noConfusion hm
    · rintro (⟨hs, hn⟩ | ⟨he, hn⟩ | ⟨hs, he, a, b, ha, hb, hle⟩)
      · exact ⟨_, bds_error_start hs hn⟩
      · exact ⟨_, bds_error_end he hn⟩
      · exact ⟨_, bds_error_order hs he ha hb hle⟩
  · intro s e a hs he hps hpe
    exact bds_error_order hs he hps hpe le_rfl

theorem build_download_sections_error_spec_witness :
    _build_download_sections "5" "5" =
      .error "End time cannot be earlier than start time" :=
  build_download_sections_error_spec.2.2 "5" "5" 5
    (by decide) (by decide) (by decide) (by decide)

/-- Characterisation of the `ok` results of `_build_download_sections`:
either both entries are empty and no arguments are produced, or exactly the
three cut-point arguments are produced, with the section string chosen by
which entries are non-empty. -/
lemma sections_ok_chars {s e : String} {l : List String}
    (h : _build_download_sections s e = .ok l) :
    (s = "" ∧ e = "" ∧ l = []) ∨
    ((s ≠ "" ∨ e ≠ "") ∧ l = ["--download-sections",
        (if s ≠ "" ∧ e ≠ "" then "*" ++ s ++ "-" ++ e
         else if s ≠ "" then "*" ++ s ++ "-" else "*-" ++ e),
        "--force-keyframes-at-cuts"]) := by
  by_cases hs0 : s = ""
  · subst hs0
    by_cases he0 : e = ""
    · subst he0
      rw [bds_empty_empty] at h
      injection h with h
      exact Or.inl ⟨rfl, rfl, h.symm⟩
    · cases hpe : parse_time e with
      | none =>
        rw [bds_error_end he0 hpe] at h
        exact Except.noConfusion h
      | some b =>
        rw [bds_ok_end he0 hpe] at h
        injection h with h
        right
        refine ⟨Or.inr he0, ?_⟩
        rw [← h]
        simp
  · cases hps : parse_time s with
    | none =>
      rw [bds_error_start hs0 hps] at h
      exact Except.noConfusion h
    | some a =>
      by_cases he0 : e = ""
      · subst he0
        rw [bds_ok_start hs0 hps] at h
        injection h with h
        right
        refine ⟨Or.inl hs0, ?_⟩
        rw [← h]
        simp [hs0]
      · cases hpe : parse_time e with
        | none =>
          rw [bds_error_end he0 hpe] at h
          exact Except.noConfusion h
        | some b =>
          by_cases hba : b ≤ a
          · rw [bds_error_order hs0 he0 hps hpe hba] at h
            exact Except.noConfusion h
          · rw [bds_ok_both hs0 he0 hps hpe (not_le.mp hba)] at h
            injection h with h
            right
            refine ⟨Or.inl hs0, ?_⟩
            rw [← h]
            simp [hs0, he0]

/-- Under the precondition that each entry is empty or parses, and that a
doubly-given range is strictly increasing, `_build_download_sections`
succeeds with the expected argument list. -/
lemma sections_ok_of_valid {s e : String}
    (hs : s = "" ∨ (parse_time s).isSome)
    (he : e = "" ∨ (parse_time e).isSome)
    (hlt : ∀ a b, s ≠ "" → e ≠ "" →
      parse_time s = some a → parse_time e = some b → a < b) :
    _build_download_sections s e = .ok (
      if s = "" ∧ e = "" then []
      else ["--download-sections",
        (if s ≠ "" ∧ e ≠ "" then "*" ++ s ++ "-" ++ e
         else if s ≠ "" then "*" ++ s ++ "-" else "*-" ++ e),
        "--force-keyframes-at-cuts"]) := by
  by_cases hs0 : s = ""
  · subst hs0
    by_cases he0 : e = ""
    · subst he0
      rw [bds_empty_empty]
      simp
    · rcases he with he' | hesome
      · exact absurd he' he0
      · obtain ⟨b, hb⟩ := Option.isSome_iff_exists.mp hesome
        rw [bds_ok_end he0 hb]
        simp [he0]
  · rcases hs with hs' | hssome
    · exact absurd hs' hs0
    · obtain ⟨a, ha⟩ := Option.isSome_iff_exists.mp hssome
      by_cases he0 : e = ""
      · subst he0
        rw [bds_ok_start hs0 ha]
        simp [hs0]
      · rcases he with he' | hesome
        · exact absurd he' he0
        · obtain ⟨b, hb⟩ := Option.isSome_iff_exists.mp hesome
          rw [bds_ok_both hs0 he0 ha hb (hlt a b hs0 he0 ha hb)]
          simp [hs0, he0]

/-- C2: whatever CRF value `v` the dropdown holds (one of "18".."28"), the
YouTube command contains the adjacent pair `--postprocessor-args`,
`-c:v libx264 -crf v`, with `v` textually unchanged. -/
theorem crf_passed_through_unmodified :
    ∀ (st : WidgetState) (yt ff o url : String) (cmd : List String),
      st.crf_value ∈ ["18", "19", "20", "21", "22", "23", "24", "25",
        "26", "27", "28"] →
      _build_youtube_command st yt ff o url = .ok cmd →
      ∃ i, cmd.get? i = some "--postprocessor-args" ∧
        cmd.get? (i + 1) = some ("-c:v libx264 -crf " ++ st.crf_value) := by
  intro st yt ff o url cmd _ h
  unfold _build_youtube_command at h
  cases hS : _build_download_sections st.start_time st.end_time with
  | error m =>
    rw [hS] at h
    exact Except.noConfusion h
  | ok secs =>
    rw [hS] at h
    injection h with h
    subst h
    exact ⟨10, rfl, rfl⟩

theorem crf_passed_through_unmodified_witness :
    ∃ i, (ytBaseCmd ⟨"", "", false, "1080", "23"⟩ "yt-dlp.exe" "ffmpeg.exe"
          "out" "url" ++ [] ++ authArgs false).get? i =
        some "--postprocessor-args" ∧
      (ytBaseCmd ⟨"", "", false, "1080", "23"⟩ "yt-dlp.exe" "ffmpeg.exe"
          "out" "url" ++ [] ++ authArgs false).get? (i + 1) =
        some ("-c:v libx264 -crf " ++ "23") :=
  crf_passed_through_unmodified ⟨"", "", false, "1080", "23"⟩
    "yt-dlp.exe" "ffmpeg.exe" "out" "url" _ (by decide) rfl

/-- C3: the YouTube command always carries `--ffmpeg-location` followed by
the ffmpeg path; when both time entries are empty it is exactly the base
command plus the authorization arguments (no cut-point flags), and when at
least one entry is non-empty it carries `--download-sections`, the section
string determined by which entries are non-empty, and
`--force-keyframes-at-cuts` at positions 13-15. -/
theorem cut_points_delegated_to_command_line :
    ∀ (st : WidgetState) (yt ff o url : String) (cmd : List String),
      _build_youtube_command st yt ff o url = .ok cmd →
      (cmd.get? 5 = some "--ffmpeg-location" ∧ cmd.get? 6 = some ff) ∧
      (st.start_time = "" ∧ st.end_time = "" →
        cmd = ytBaseCmd st yt ff o url ++ authArgs st.authorize) ∧
      ((st.start_time ≠ "" ∨ st.end_time ≠ "") →
        cmd.get? 13 = some "--download-sections" ∧
        cmd.get? 14 = some
          (if st.start_time ≠ "" ∧ st.end_time ≠ "" then
            "*" ++ st.start_time ++ "-" ++ st.end_time
          else if st.start_time ≠ "" then "*" ++ st.start_time ++ "-"
          else "*-" ++ st.end_time) ∧
        cmd.get? 15 = some "--force-keyframes-at-cuts") := by
  intro st yt ff o url cmd h
  unfold _build_youtube_command at h
  cases hS : _build_download_sections st.start_time st.end_time with
  | error m =>
    rw [hS] at h
    exact Except.noConfusion h
  | ok secs =>
    rw [hS] at h
    injection h with h
    subst h
    rcases sections_ok_chars hS with ⟨hs, he, rfl⟩ | ⟨hne, rfl⟩
    · refine ⟨⟨rfl, rfl⟩, fun _ => by simp, fun hcon => ?_⟩
      rcases hcon with hcon | hcon
      · exact absurd hs hcon
      · exact absurd he hcon
    · refine ⟨⟨rfl, rfl⟩, fun hcon => ?_, fun _ => ⟨rfl, rfl, rfl⟩⟩
      rcases hne with hne | hne
      · exact absurd hcon.1 hne
      · exact absurd hcon.2 hne

theorem cut_points_delegated_to_command_line_witness :
    (ytBaseCmd ⟨"1", "", false, "720", "23"⟩ "yt" "ff" "o" "u" ++
        ["--download-sections", "*1-", "--force-keyframes-at-cuts"] ++
        authArgs false).get? 13 = some "--download-sections" := by
  have h := cut_points_delegated_to_command_line ⟨"1", "", false, "720", "23"⟩
    "yt" "ff" "o" "u"
    (ytBaseCmd ⟨"1", "", false, "720", "23"⟩ "yt" "ff" "o" "u" ++
      ["--download-sections", "*1-", "--force-keyframes-at-cuts"] ++
      authArgs false) rfl
  exact (h.2.2 (Or.inl (by decide))).1

/-- C4: for identical widget state, when each time entry is empty or
parses and a doubly-given range is strictly increasing, the new
`_build_youtube_command` succeeds and produces exactly the argument list
the old iteration's `download_video` builds. -/
theorem old_and_new_yt_commands_agree :
    ∀ (st : WidgetState) (yt ff o url : String),
      (st.start_time = "" ∨ (parse_time st.start_time).isSome) →
      (st.end_time = "" ∨ (parse_time st.end_time).isSome) →
      (∀ a b, st.start_time ≠ "" → st.end_time ≠ "" →
        parse_time st.start_time = some a → parse_time st.end_time = some b →
        a < b) →
      _build_youtube_command st yt ff o url =
        .ok (download_video_yt_command st yt ff o url) := by
  intro st yt ff o url hs he hlt
  unfold _build_youtube_command download_video_yt_command
  rw [sections_ok_of_valid hs he hlt]
  by_cases hs0 : st.start_time = "" <;> by_cases he0 : st.end_time = "" <;>
    simp [hs0, he0]

theorem old_and_new_yt_commands_agree_witness :
    _build_youtube_command ⟨"1", "2", true, "480", "20"⟩ "yt" "ff" "o" "u" =
      .ok (download_video_yt_command ⟨"1", "2", true, "480", "20"⟩
        "yt" "ff" "o" "u") := by
  refine old_and_new_yt_commands_agree _ "yt" "ff" "o" "u"
    (Or.inr (by decide)) (Or.inr (by decide)) ?_
  intro a b _ _ ha hb
  have h1 : parse_time "1" = some 1 := by decide
  have h2 : parse_time "2" = some 2 := by decide
  rw [h1] at ha
  rw [h2] at hb
  injection ha with ha
  injection hb with hb
  omega

/-! ## The worker thread (`run_command_in_thread`, new iteration 388-403;
`run_command`, old iteration 269-315)

The subprocess outcome is modelled as `Except Unit T`: `.ok r` when
`command.run()` returns `r`, `.error ()` when it raises
`subprocess.CalledProcessError`.  The function's observable effects are
the values put on its result queue and the error dialogs it schedules on
the UI thread, returned as a pair of lists. -/

def run_command_in_thread {T : Type} (selected_platform : String)
    (authorize : Bool) (outcome : Except Unit T) :
    List T × List (String × String) :=
  match outcome with
  | .ok result => ([result], [])
  | .error _ =>
    ([], [("Error", "Download failed." ++
      (if selected_platform = "YT" ∧ ¬ authorize then
        "\nTry again with \x27Authorize YT\x27 checked." else ""))])

/-- The old iteration's `run_command` for `Operation.VIDEO_DOWNLOAD`: the
`(status, title, message)` triples put on the `MessageQueue`. -/
def run_command_video_download (outcome : Except Unit Unit) :
    List (Bool × String × String) :=
  match outcome with
  | .ok _ => [(true, "Success", "Download successful!")]
  | .error _ => [(false, "Error", "Download failed.")]

/-- C5: `run_command_in_thread` puts a value on the result queue iff
`command.run()` returns (does not raise `CalledProcessError`); on the
error it queues nothing and schedules exactly one error dialog, while the
old iteration's `run_command` instead queues
`(False, "Error", "Download failed.")`. -/
theorem worker_reports_only_on_success :
    ∀ {T : Type} (p : String) (auth : Bool) (outcome : Except Unit T),
      ((run_command_in_thread p auth outcome).1 ≠ [] ↔
        ∃ r, outcome = .ok r) ∧
      (∀ r, outcome = .ok r →
        run_command_in_thread p auth outcome = ([r], [])) ∧
      (outcome = .error () →
        (run_command_in_thread p auth outcome).1 = [] ∧
        ∃ m, (run_command_in_thread p auth outcome).2 = [("Error", m)]) ∧
      run_command_video_download (.error ()) =
        [(false, "Error", "Download failed.")] := by
  intro T p auth outcome
  refine ⟨?_, ?_, ?_, rfl⟩
  · cases outcome with
    | ok r => simp [run_command_in_thread]
    | error u => simp [run_command_in_thread]
  · rintro r rfl
    rfl
  · rintro rfl
    exact ⟨rfl, _, rfl⟩

theorem worker_reports_only_on_success_witness :
    (run_command_in_thread "YT" false
      (Except.error () : Except Unit Bool)).1 = [] :=
  ((worker_reports_only_on_success "YT" false (.error ())).2.2.1 rfl).1

/-! ## Vimeo (`_build_vimeo_command`, new iteration 671-690; old
iteration's Vimeo branch of `download_video`, 522-537) -/

/-- The literal prefix of the pattern `^https://vimeo\.com/(\d+)`. -/
def vimeoHead : List Char :=
  ['h', 't', 't', 'p', 's', ':', '/', '/', 'v', 'i', 'm', 'e', 'o',
   '.', 'c', 'o', 'm', '/']

/-- Consume an exact literal from the front of a character list. -/
def dropExact : List Char → List Char → Option (List Char)
  | [], l => some l
  | _ :: _, [] => none
  | c :: p, d :: l => if c = d then dropExact p l else none

/-- `re.match(r"^https://vimeo\.com/(\d+)", url)`: a prefix match whose
group 1 is the maximal digit run after the literal head. -/
def vimeo_match (url : String) : Option String :=
  match dropExact vimeoHead url.toList with
  | none => none
  | some rest =>
    if rest.takeWhile Char.isDigit = [] then none
    else some (String.mk (rest.takeWhile Char.isDigit))

/-- `_build_vimeo_command` (new iteration): `ValueError` on a non-matching
URL, otherwise the seven fixed arguments around the rewritten player URL. -/
def _build_vimeo_command (yt_dlp_path url output_template : String) :
    Except String (List String) :=
  match vimeo_match url with
  | none => .error "Invalid Vimeo URL"
  | some video_id =>
    .ok [yt_dlp_path, "https://player.vimeo.com/video/" ++ video_id,
      "-o", output_template, "--referer", "https://www.patreon.com",
      "--force-overwrite"]

/-- The old iteration's Vimeo branch: `none` models "show the
Invalid Vimeo URL dialog and build no command". -/
def download_video_vimeo_command (yt_dlp_path url output_template : String) :
    Option (List String) :=
  match vimeo_match url with
  | none => none
  | some video_id =>
    some [yt_dlp_path, "https://player.vimeo.com/video/" ++ video_id,
      "-o", output_template, "--referer", "https://www.patreon.com",
      "--force-overwrite"]

/-- `url` is matched by `^https://vimeo\.com/(\d+)` with capture `id`:
the URL starts with the literal head followed by the non-empty maximal
digit run `id`. -/
def MatchesVimeo (url : String) (id : List Char) : Prop :=
  ∃ rest, url.toList = vimeoHead ++ id ++ rest ∧ id ≠ [] ∧
    (∀ c ∈ id, c.isDigit) ∧ headNotDigit rest

lemma dropExact_append (p r : List Char) : dropExact p (p ++ r) = some r := by
  induction p with
  | nil => rfl
  | cons c t ih => simp [dropExact, ih]

lemma dropExact_eq_some {p l r : List Char} (h : dropExact p l = some r) :
    l = p ++ r := by
  induction p generalizing l with
  | nil =>
    cases l <;> simp_all [dropExact]
  | cons c t ih =>
    cases l with
    | nil => exact Option.noConfusion h
    | cons d l' =>
      simp only [dropExact] at h
      by_cases hcd : c = d
      · rw [if_pos hcd] at h
        subst hcd
        rw [ih h]
        rfl
      · rw [if_neg hcd] at h
        exact Option.noConfusion h

lemma headNotDigit_dropWhile (l : List Char) :
    headNotDigit (l.dropWhile Char.isDigit) := by
  induction l with
  | nil => trivial
  | cons a t ih =>
    by_cases ha : a.isDigit = true
    · simpa [List.dropWhile_cons, ha] using ih
    · simp only [List.dropWhile_cons]
      rw [if_neg (by simp [ha])]
      simpa [headNotDigit] using ha

/-- C6: Vimeo handling is pure argument assembly: a URL matching
`^https://vimeo\.com/(\d+)` produces exactly the seven-argument yt-dlp
command with the captured digits spliced into the player URL, any other
URL raises `ValueError` (the old iteration builds no command there), and
the old iteration's Vimeo branch builds the same command as the new one. -/
theorem vimeo_pure_argument_assembly :
    (∀ (url : String) (id : List Char) (yt o : String),
      MatchesVimeo url id →
      _build_vimeo_command yt url o = .ok [yt,
        "https://player.vimeo.com/video/" ++ String.mk id, "-o", o,
        "--referer", "https://www.patreon.com", "--force-overwrite"]) ∧
    (∀ (url yt o : String), (¬ ∃ id, MatchesVimeo url id) →
      _build_vimeo_command yt url o = .error "Invalid Vimeo URL") ∧
    (∀ yt url o, download_video_vimeo_command yt url o =
      (_build_vimeo_command yt url o).toOption) := by
  refine ⟨?_, ?_, ?_⟩
  · rintro url id yt o ⟨rest, hurl, hne, hdig, hnd⟩
    rw [List.append_assoc] at hurl
    have hmatch : vimeo_match url =
        some (String.mk id) := by
      unfold vimeo_match
      rw [hurl, dropExact_append]
      obtain ⟨ht, -⟩ := takeWhile_digit_append hdig hnd
      simp [ht, hne]
    unfold _build_vimeo_command
    rw [hmatch]
  · intro url yt o hno
    cases hv : vimeo_match url with
    | none =>
      unfold _build_vimeo_command
      rw [hv]
    | some v =>
      exfalso
      apply hno
      unfold vimeo_match at hv
      cases hde : dropExact vimeoHead url.toList with
      | none =>
        rw [hde] at hv
        exact Option.noConfusion hv
      | some rest =>
        rw [hde] at hv
        by_cases hd0 : rest.takeWhile Char.isDigit = []
        · simp [hd0] at hv
        · refine ⟨rest.takeWhile Char.isDigit, rest.dropWhile Char.isDigit,
            ?_, hd0, fun c hc => List.mem_takeWhile_imp hc,
            headNotDigit_dropWhile rest⟩
          rw [dropExact_eq_some hde, List.append_assoc,
            List.takeWhile_append_dropWhile]
  · intro yt url o
    unfold download_video_vimeo_command _build_vimeo_command
    cases vimeo_match url <;> rfl

theorem vimeo_pure_argument_assembly_witness :
    _build_vimeo_command "yt" "https://vimeo.com/123" "o" = .ok ["yt",
      "https://player.vimeo.com/video/" ++ String.mk ['1', '2', '3'],
      "-o", "o", "--referer", "https://www.patreon.com",
      "--force-overwrite"] ∧
    _build_vimeo_command "yt" "" "o" = .error "Invalid Vimeo URL" := by
  constructor
  · exact vimeo_pure_argument_assembly.1 "https://vimeo.com/123"
      ['1', '2', '3'] "yt" "o"
      ⟨[], by decide, by decide, by decide, trivial⟩
  · refine vimeo_pure_argument_assembly.2.1 "" "yt" "o" ?_
    rintro ⟨id, rest, heq, -, -, -⟩
    simp [vimeoHead] at heq

/-! ## Resolution list (`update_resolutions`, new iteration 359-376 and
old iteration 238-261)

A JSON format dict is abstracted to its `height` field, an `Option Int`
(`none` when the key is missing).  Python's `f.get("height") and
f["height"] >= 144` drops missing heights and, by truthiness, height 0;
the old iteration's `height is not None and height >= 144` drops only
missing heights.  `sorted` on the set of heights is the ascending list of
distinct heights. -/

structure ResUI where
  combobox_values : List String
  combobox_selected : String
  button_enabled : Bool
deriving DecidableEq

/-- `update_gui` inside the new `update_resolutions`: delivering video
info updates the combobox and button and possibly opens an error dialog
(returned as the second component). -/
def update_gui (formats : List (Option Int)) (ui : ResUI) :
    ResUI × List (String × String) :=
  if ((formats.filterMap id).filter
      (fun h => decide (h ≠ 0 ∧ 144 ≤ h))).toFinset = ∅ then
    ({ ui with combobox_values := [] },
      [("No resolution available", "Failed to retrieve video information.")])
  else
    ({ combobox_values := (((formats.filterMap id).filter
          (fun h => decide (h ≠ 0 ∧ 144 ≤ h))).toFinset.sort
            (· ≤ ·)).map toString,
       combobox_selected := ((((formats.filterMap id).filter
          (fun h => decide (h ≠ 0 ∧ 144 ≤ h))).toFinset.sort
            (· ≤ ·)).map toString).getLastD "",
       button_enabled := true }, [])

/-- The corresponding update in the old iteration's
`check_queue_periodically` (lines 238-261), whose filter tests
`height is not None and height >= 144`. -/
def update_resolutions_old (formats : List (Option Int)) (ui : ResUI) :
    ResUI × List (String × String) :=
  if ((formats.filterMap id).filter
      (fun h => decide (144 ≤ h))).toFinset = ∅ then
    ({ ui with combobox_values := [] },
      [("No resolution available", "Failed to retrieve video information.")])
  else
    ({ combobox_values := (((formats.filterMap id).filter
          (fun h => decide (144 ≤ h))).toFinset.sort
            (· ≤ ·)).map toString,
       combobox_selected := ((((formats.filterMap id).filter
          (fun h => decide (144 ≤ h))).toFinset.sort
            (· ≤ ·)).map toString).getLastD "",
       button_enabled := true }, [])

lemma getLastD_cons_ne_nil {α : Type} {l : List α} (h : l ≠ []) (d d' : α) :
    l.getLastD d = l.getLastD d' := by
  cases l with
  | nil => exact absurd rfl h
  | cons a t => rw [List.getLastD_cons, List.getLastD_cons]

lemma getLastD_mem {α : Type} : ∀ {l : List α}, l ≠ [] → ∀ d,
    l.getLastD d ∈ l := by
  intro l
  induction l with
  | nil => exact fun h _ => absurd rfl h
  | cons a t ih =>
    intro _ d
    rw [List.getLastD_cons]
    cases t with
    | nil => simp
    | cons b t' => exact List.mem_cons_of_mem a (ih (by simp) a)

lemma le_getLastD_sorted : ∀ {L : List Int}, L.Sorted (· ≤ ·) →
    ∀ {x : Int}, x ∈ L → ∀ d, x ≤ L.getLastD d := by
  intro L
  induction L with
  | nil =>
    intro _ x hx
    simp at hx
  | cons a t ih =>
    intro hs x hx d
    rw [List.getLastD_cons]
    obtain ⟨hall, ht⟩ := List.sorted_cons.mp hs
    rcases List.mem_cons.mp hx with rfl | hx
    · cases t with
      | nil => simp
      | cons b t' =>
        have hxb : x ≤ b := hall b (List.mem_cons_self b t')
        exact le_trans hxb (ih ht (List.mem_cons_self b t') x)
    · exact ih ht hx a

lemma getLastD_map_ne_nil {α β : Type} (f : α → β) :
    ∀ (L : List α), L ≠ [] → ∀ (d : β) (d' : α),
      (L.map f).getLastD d = f (L.getLastD d') := by
  intro L
  induction L with
  | nil => exact fun h _ _ => absurd rfl h
  | cons a t ih =>
    intro _ d d'
    rw [List.map_cons, List.getLastD_cons, List.getLastD_cons]
    cases t with
    | nil => rfl
    | cons b t' => exact ih (by simp) (f a) a

lemma mem_qualifying {formats : List (Option Int)} {h : Int} :
    h ∈ (formats.filterMap id).filter (fun h => decide (h ≠ 0 ∧ 144 ≤ h)) ↔
      (some h ∈ formats ∧ 144 ≤ h) := by
  simp only [List.mem_filter, List.mem_filterMap, id_eq, decide_eq_true_eq]
  constructor
  · rintro ⟨⟨a, ha, rfl⟩, -, h144⟩
    exact ⟨ha, h144⟩
  · rintro ⟨hmem, h144⟩
    exact ⟨⟨some h, hmem, rfl⟩, by omega, h144⟩

/-- C10: after fetching video info the combobox offers exactly the
distinct format heights that are at least 144, in ascending numeric
order, with the largest height preselected and the download button
re-enabled; with no such height the list is emptied, the error dialog is
shown, and the download button is not re-enabled; the old iteration
computes the identical update. -/
theorem resolution_list_spec :
    ∀ (formats : List (Option Int)) (ui : ResUI),
      (∃ L : List Int,
        (update_gui formats ui).1.combobox_values = L.map toString ∧
        L.Pairwise (· < ·) ∧
        (∀ h : Int, h ∈ L ↔ (some h ∈ formats ∧ 144 ≤ h))) ∧
      (¬ (∃ h : Int, some h ∈ formats ∧ 144 ≤ h) →
        (update_gui formats ui).1.combobox_values = [] ∧
        (update_gui formats ui).2 = [("No resolution available",
          "Failed to retrieve video information.")] ∧
        (update_gui formats ui).1.button_enabled = ui.button_enabled) ∧
      ((∃ h : Int, some h ∈ formats ∧ 144 ≤ h) →
        (update_gui formats ui).1.button_enabled = true ∧
        ∃ m : Int, (update_gui formats ui).1.combobox_selected = toString m ∧
          (some m ∈ formats ∧ 144 ≤ m) ∧
          (∀ h : Int, some h ∈ formats → 144 ≤ h → h ≤ m)) ∧
      update_resolutions_old formats ui = update_gui formats ui := by
  intro formats ui
  have hiff : ∀ h : Int, h ∈ ((formats.filterMap id).filter
      (fun h => decide (h ≠ 0 ∧ 144 ≤ h))).toFinset ↔
      (some h ∈ formats ∧ 144 ≤ h) := by
    intro h
    rw [List.mem_toFinset]
    exact mem_qualifying
  have hold : update_resolutions_old formats ui = update_gui formats ui := by
    have hfilter : (formats.filterMap id).filter (fun h => decide (144 ≤ h)) =
        (formats.filterMap id).filter (fun h => decide (h ≠ 0 ∧ 144 ≤ h)) := by
      refine List.filter_congr ?_
      intro a _
      rw [decide_eq_decide]
      constructor
      · intro h144
        exact ⟨by omega, h144⟩
      · exact fun h => h.2
    unfold update_resolutions_old update_gui
    rw [hfilter]
  by_cases hE : ((formats.filterMap id).filter
      (fun h => decide (h ≠ 0 ∧ 144 ≤ h))).toFinset = ∅
  · have hno : ¬ (∃ h : Int, some h ∈ formats ∧ 144 ≤ h) := by
      rintro ⟨h, hmem, h144⟩
      have : h ∈ ((formats.filterMap id).filter
          (fun h => decide (h ≠ 0 ∧ 144 ≤ h))).toFinset :=
        (hiff h).mpr ⟨hmem, h144⟩
      rw [hE] at this
      exact absurd this (Finset.not_mem_empty h)
    refine ⟨⟨[], ?_, ?_, ?_⟩, ?_, ?_, hold⟩
    · simp only [update_gui, if_pos hE]
      rfl
    · simp
    · intro h
      simp only [List.not_mem_nil, false_iff]
      exact fun hcon => hno ⟨h, hcon⟩
    · intro _
      simp only [update_gui, if_pos hE]
      simp
    · intro hcon
      exact absurd hcon hno
  · have hsome : ∃ h : Int, some h ∈ formats ∧ 144 ≤ h := by
      obtain ⟨h, hh⟩ := Finset.nonempty_iff_ne_empty.mpr hE
      exact ⟨h, (hiff h).mp hh⟩
    have hLne : ((formats.filterMap id).filter
        (fun h => decide (h ≠ 0 ∧ 144 ≤ h))).toFinset.sort (· ≤ ·) ≠ [] := by
      intro hnil
      obtain ⟨h, hmem, h144⟩ := hsome
      have : h ∈ ((formats.filterMap id).filter
          (fun h => decide (h ≠ 0 ∧ 144 ≤ h))).toFinset.sort (· ≤ ·) :=
        (Finset.mem_sort _).mpr ((hiff h).mpr ⟨hmem, h144⟩)
      rw [hnil] at this
      exact absurd this (List.not_mem_nil h)
    have hsorted := Finset.sort_sorted (α := Int) (· ≤ ·)
      ((formats.filterMap id).filter (fun h => decide (h ≠ 0 ∧ 144 ≤ h))).toFinset
    refine ⟨?_, ?_, ?_, hold⟩
    · refine ⟨((formats.filterMap id).filter
        (fun h => decide (h ≠ 0 ∧ 144 ≤ h))).toFinset.sort (· ≤ ·),
        by simp only [update_gui, if_neg hE], ?_, ?_⟩
      · have hnodup := Finset.sort_nodup (α := Int) (· ≤ ·)
          ((formats.filterMap id).filter
            (fun h => decide (h ≠ 0 ∧ 144 ≤ h))).toFinset
        have hand := List.Pairwise.and hsorted hnodup
        exact hand.imp (fun hab => lt_of_le_of_ne hab.1 hab.2)
      · intro h
        rw [Finset.mem_sort]
        exact hiff h
    · intro hcon
      exact absurd hsome hcon
    · intro _
      refine ⟨by simp only [update_gui, if_neg hE], ?_⟩
      refine ⟨(((formats.filterMap id).filter
        (fun h => decide (h ≠ 0 ∧ 144 ≤ h))).toFinset.sort (· ≤ ·)).getLastD 0,
        ?_, ?_, ?_⟩
      · simp only [update_gui, if_neg hE]
        exact getLastD_map_ne_nil toString _ hLne "" 0
      · have := getLastD_mem hLne 0
        rw [Finset.mem_sort] at this
        exact (hiff _).mp this
      · intro h hmem h144
        have hhL : h ∈ ((formats.filterMap id).filter
            (fun hh => decide (hh ≠ 0 ∧ 144 ≤ hh))).toFinset.sort (· ≤ ·) :=
          (Finset.mem_sort _).mpr ((hiff h).mpr ⟨hmem, h144⟩)
        exact le_getLastD_sorted hsorted hhL 0

theorem resolution_list_spec_witness :
    (update_gui [some 720, some 1080, some 100]
      ⟨[], "", false⟩).1.button_enabled = true :=
  ((resolution_list_spec [some 720, some 1080, some 100]
    ⟨[], "", false⟩).2.2.1 ⟨720, by decide, by decide⟩).1

/-! ## Polling checkers (C7)

Each `check_queue` closure is modelled as one step: given the queue
contents and the relevant UI state it returns the updated UI state, the
dialogs shown, and the re-arm delay passed to `self.after` (`none` when
the checker does not re-arm).  A non-empty queue models `get_nowait`
delivering the first result. -/

/-- One step of `check_queue` in the new `update_resolutions`
(lines 378-386): an empty queue re-arms after 100ms and leaves the UI
untouched; a delivered info dict runs `update_gui` and never re-arms. -/
def update_resolutions_check_queue (q : List (List (Option Int)))
    (ui : ResUI) : (ResUI × List (String × String)) × Option Nat :=
  match q with
  | [] => ((ui, []), some 100)
  | info :: _ => (update_gui info ui, none)

structure DlUI where
  download_button_enabled : Bool
deriving DecidableEq

/-- One step of `check_queue_periodically` in `_run_download_command`
(lines 702-716): the `finally` clause sets the download button back to
normal on every path, including the empty-queue path. -/
def run_download_check_queue (q : List Bool) (ui : DlUI) :
    (DlUI × List (String × String)) × Option Nat :=
  match q with
  | [] => ((⟨true⟩, []), some 100)
  | success :: _ =>
    ((⟨true⟩, if success then [("Success", "Download successful!")]
      else []), none)

/-- One step of `check_queue_periodically` in the old iteration's
`download_video` (lines 549-556): `show_next` raises `queue.Empty` before
any UI change, so an empty queue only re-arms; a delivered message shows
its dialog (per `MessageQueue.show_next`) and re-enables the button. -/
def download_video_check_queue (q : List (Bool × String × String))
    (ui : DlUI) : (DlUI × List (String × String)) × Option Nat :=
  match q with
  | [] => ((ui, []), some 100)
  | (status, title, message) :: _ =>
    ((⟨true⟩,
      if status then
        (if title ≠ "" ∧ message ≠ "" then [(title, message)] else [])
      else [(title, message)]), none)

/-- C7 counterexample: on an empty-queue step the `_run_download_command`
checker does change the UI state — its `finally` clause re-enables the
download button that `_run_download_command` had just disabled. -/
theorem run_download_empty_step_changes_ui :
    (run_download_check_queue [] ⟨false⟩).1.1 ≠ ⟨false⟩ := by decide

/-- C7 (amended): every checker re-arms itself with a 100ms delay when
the queue is empty and never re-arms once a result is retrieved; the
`update_resolutions` checker and the old iteration's checker leave the UI
unchanged on empty steps, but the `_run_download_command` checker sets
the download button to enabled on every step, empty ones included. -/
theorem polling_every_100ms_until_first_result :
    (∀ (q : List (List (Option Int))) (ui : ResUI),
      (q = [] → update_resolutions_check_queue q ui = ((ui, []), some 100)) ∧
      (q ≠ [] → (update_resolutions_check_queue q ui).2 = none)) ∧
    (∀ (q : List Bool) (ui : DlUI),
      (q = [] → run_download_check_queue q ui = ((⟨true⟩, []), some 100)) ∧
      (q ≠ [] → (run_download_check_queue q ui).2 = none)) ∧
    (∀ (q : List (Bool × String × String)) (ui : DlUI),
      (q = [] → download_video_check_queue q ui = ((ui, []), some 100)) ∧
      (q ≠ [] → (download_video_check_queue q ui).2 = none)) := by
  refine ⟨fun q ui => ⟨?_, ?_⟩, fun q ui => ⟨?_, ?_⟩, fun q ui => ⟨?_, ?_⟩⟩
  · rintro rfl
    rfl
  · intro hne
    cases q with
    | nil => exact absurd rfl hne
    | cons x t => rfl
  · rintro rfl
    rfl
  · intro hne
    cases q with
    | nil => exact absurd rfl hne
    | cons x t => rfl
  · rintro rfl
    rfl
  · intro hne
    cases q with
    | nil => exact absurd rfl hne
    | cons x t =>
      obtain ⟨status, title, message⟩ := x
      rfl

theorem polling_every_100ms_until_first_result_witness :
    update_resolutions_check_queue [] ⟨[], "", false⟩ =
      ((⟨[], "", false⟩, []), some 100) ∧
    (run_download_check_queue [true] ⟨false⟩).2 = none :=
  ⟨(polling_every_100ms_until_first_result.1 [] ⟨[], "", false⟩).1 rfl,
   (polling_every_100ms_until_first_result.2.1 [true] ⟨false⟩).2
     (by decide)⟩

end YtGui
